import Mathlib

/-!
Verification of the gproj reconciliation tool (Go sources: credentials.go, apis.go).

The repository contains two evolutions of the reconciliation engine: an older
one whose entry point is the function named in Go as `sync`, and a newer one
whose entry point is `apply`, plus a catalog cache in apis.go.  We embed both
paths as pure Lean functions over an explicit oracle of remote responses
(`World`) and an explicit trace of issued remote calls, and prove the spec
claims about them.
-/

namespace Gproj

/-- Embeds Go strings.Contains(s, ".") from credentials.go: a single-character
substring test is membership of that character. -/
def containsDot (s : String) : Bool := s.data.contains '.'

/-- Embeds the API-name normalization loop body of credentials.go (apply and
sync): a requested API name with no "." has ".googleapis.com" appended;
otherwise it is passed through unchanged. -/
def normalizeAPI (s : String) : String :=
  if !containsDot s then s ++ ".googleapis.com" else s

theorem containsDot_append_suffix (s : String) :
    containsDot (s ++ ".googleapis.com") = true := by
  unfold containsDot
  rw [String.data_append]
  simp [List.contains, List.elem_eq_mem]

/-! ## Go map embedding

Go maps are finite string-keyed maps with assignment that overwrites.  We embed
them as association lists: `mapInsert` overwrites an existing binding in place
or appends a new one, and `mapLookup` finds the binding of a key. -/

/-- Embeds Go map assignment m[k] = v. -/
def mapInsert {V : Type} (m : List (String × V)) (k : String) (v : V) : List (String × V) :=
  if m.any (fun p => p.1 == k) then
    m.map (fun p => if p.1 == k then (k, v) else p)
  else
    m ++ [(k, v)]

/-- Embeds Go map lookup m[k]. -/
def mapLookup {V : Type} (m : List (String × V)) (k : String) : Option V :=
  (m.find? (fun p => p.1 == k)).map (fun p => p.2)

theorem mapLookup_mapInsert_self {V : Type} (m : List (String × V)) (k : String) (v : V) :
    mapLookup (mapInsert m k v) k = some v := by
  unfold mapInsert mapLookup
  by_cases h : m.any (fun p => p.1 == k)
  · simp only [h, if_true]
    rw [List.find?_map]
    have hpf : ((fun p : String × V => p.1 == k) ∘ fun p => if p.1 == k then (k, v) else p)
        = fun p : String × V => p.1 == k := by
      funext p
      by_cases hp : p.1 = k <;> simp [hp]
    rw [hpf]
    rw [List.any_eq_true] at h
    obtain ⟨x, hxm, hxk⟩ := h
    have hsome : (m.find? (fun p => p.1 == k)).isSome := by
      rw [List.find?_isSome]
      exact ⟨x, hxm, hxk⟩
    cases hfind : m.find? (fun p => p.1 == k) with
    | none => rw [hfind] at hsome; simp at hsome
    | some y =>
      have hy := List.find?_some hfind
      rw [beq_iff_eq] at hy
      simp [hy]
  · rw [Bool.not_eq_true] at h
    simp only [h, Bool.false_eq_true, if_false]
    have hnone : m.find? (fun p => p.1 == k) = none := by
      rw [List.find?_eq_none]
      intro p hp
      have := List.any_eq_false.mp h p hp
      simp [this]
    rw [List.find?_append, hnone]
    simp [List.find?]

theorem mapLookup_mapInsert_ne {V : Type} (m : List (String × V)) (k k' : String) (v : V)
    (hne : k' ≠ k) : mapLookup (mapInsert m k v) k' = mapLookup m k' := by
  unfold mapInsert mapLookup
  by_cases h : m.any (fun p => p.1 == k)
  · simp only [h, if_true]
    rw [List.find?_map]
    have hpf : ((fun p : String × V => p.1 == k') ∘ fun p => if p.1 == k then (k, v) else p)
        = fun p : String × V => p.1 == k' := by
      funext p
      by_cases hp : p.1 = k
      · have : ¬(k = k') := fun hkk => hne hkk.symm
        simp [hp, this]
      · simp [hp]
    rw [hpf]
    cases hfind : m.find? (fun p => p.1 == k') with
    | none => simp
    | some x =>
      have hx := List.find?_some hfind
      have hxk : ¬(x.1 = k) := by
        intro hk
        rw [hk] at hx
        rw [beq_iff_eq] at hx
        exact hne hx.symm
      simp [hxk]
  · rw [Bool.not_eq_true] at h
    simp only [h, Bool.false_eq_true, if_false]
    rw [List.find?_append]
    cases hfind : m.find? (fun p => p.1 == k') with
    | some x => simp
    | none =>
      have hkk : (k == k') = false := beq_eq_false_iff_ne.mpr (fun hkk => hne hkk.symm)
      simp [List.find?, hkk]

theorem mapLookup_eq_none_of_forall {V : Type} (m : List (String × V)) (k : String)
    (h : ∀ p ∈ m, p.1 ≠ k) : mapLookup m k = none := by
  unfold mapLookup
  have : m.find? (fun p => p.1 == k) = none := by
    rw [List.find?_eq_none]
    intro p hp
    simp [h p hp]
  simp [this]

/-- Copying a key-distinct label map entry by entry into an accumulator:
a key bound in the source ends with its source binding, any other key keeps
its accumulator binding. -/
theorem mapLookup_foldl_mapInsert {V : Type} (L : List (String × V)) (acc : List (String × V))
    (k : String) (hnd : L.Pairwise (fun a b => a.1 ≠ b.1)) :
    mapLookup (L.foldl (fun m p => mapInsert m p.1 p.2) acc) k =
      ((mapLookup L k).elim (mapLookup acc k) some) := by
  induction L generalizing acc with
  | nil => simp [mapLookup, List.find?]
  | cons p rest ih =>
    rw [List.pairwise_cons] at hnd
    obtain ⟨hhead, hrest⟩ := hnd
    rw [List.foldl_cons, ih _ hrest]
    by_cases hk : k = p.1
    · have h1 : mapLookup rest k = none := by
        apply mapLookup_eq_none_of_forall
        intro q hq
        intro hqk
        exact hhead q hq (hqk.trans hk).symm
      have h2 : mapLookup (p :: rest) k = some p.2 := by
        simp [mapLookup, List.find?, hk]
      rw [h1, h2, hk, mapLookup_mapInsert_self]
      rfl
    · have h2 : mapLookup (p :: rest) k = mapLookup rest k := by
        have : (p.1 == k) = false := beq_eq_false_iff_ne.mpr (fun hpk => hk hpk.symm)
        simp [mapLookup, List.find?, this]
      rw [h2, mapLookup_mapInsert_ne _ _ _ _ hk]

/-- Embeds the create-path label construction of credentials.go (apply lines
717-727, sync lines 227-237): a fresh empty map, a copy loop over the spec
labels, then assignment of the management marker (apply:
"managed-by"="gproj"; sync: "gproj-created-at" = the current time). -/
def buildCreatedLabels (specLabels : List (String × String)) (markerKey markerVal : String) :
    List (String × String) :=
  mapInsert (specLabels.foldl (fun m p => mapInsert m p.1 p.2) []) markerKey markerVal

theorem mapLookup_buildCreatedLabels (L : List (String × String)) (mk mv k : String)
    (hnd : L.Pairwise (fun a b => a.1 ≠ b.1)) :
    mapLookup (buildCreatedLabels L mk mv) k =
      if k = mk then some mv else mapLookup L k := by
  unfold buildCreatedLabels
  by_cases hk : k = mk
  · rw [hk, if_pos rfl, mapLookup_mapInsert_self]
  · rw [if_neg hk, mapLookup_mapInsert_ne _ _ _ _ hk, mapLookup_foldl_mapInsert _ _ _ hnd]
    cases hL : mapLookup L k with
    | none => simp [mapLookup, List.find?]
    | some v => rfl

/-! ## Heap model of Go label maps

Go maps are reference values: assigning through one reference mutates the
shared map.  To state the frame property of the create-path label copy (the
spec label map is never mutated) we model a small heap of label maps; a
reference is an index into the heap. -/

/-- Heap of Go label maps. -/
structure LabelHeap where
  maps : List (List (String × String))

/-- Dereference a label-map reference. -/
def LabelHeap.read (h : LabelHeap) (r : Nat) : List (String × String) :=
  h.maps.getD r []

/-- Embeds Go make(map[string]string): allocate a fresh empty map. -/
def LabelHeap.alloc (h : LabelHeap) : LabelHeap × Nat :=
  (⟨h.maps ++ [[]]⟩, h.maps.length)

/-- Embeds Go map assignment through a reference. -/
def LabelHeap.insertAt (h : LabelHeap) (r : Nat) (k v : String) : LabelHeap :=
  ⟨h.maps.set r (mapInsert (h.maps.getD r []) k v)⟩

/-- Embeds the create path of credentials.go on the heap model, statement for
statement: project.Labels = make(map); for k, v := range spec.Labels
\x7b project.Labels[k] = v \x7d; project.Labels[markerKey] = markerVal.
Only the freshly allocated project map is ever assigned to. -/
def buildProjectLabelsOnHeap (h : LabelHeap) (specRef : Nat) (markerKey markerVal : String) :
    LabelHeap × Nat :=
  let alloc := h.alloc
  let h1 := alloc.1
  let projRef := alloc.2
  let h2 := (h1.read specRef).foldl (fun hh p => hh.insertAt projRef p.1 p.2) h1
  (h2.insertAt projRef markerKey markerVal, projRef)

theorem LabelHeap.read_insertAt_ne (h : LabelHeap) (r r' : Nat) (k v : String) (hne : r ≠ r') :
    (h.insertAt r k v).read r' = h.read r' := by
  unfold LabelHeap.insertAt LabelHeap.read
  simp [List.getD, List.getElem?_set_ne hne]

theorem LabelHeap.read_insertAt_self (h : LabelHeap) (r : Nat) (k v : String)
    (hr : r < h.maps.length) :
    (h.insertAt r k v).read r = mapInsert (h.read r) k v := by
  unfold LabelHeap.insertAt LabelHeap.read
  simp [List.getD, List.getElem?_set_self, hr]

theorem LabelHeap.length_insertAt (h : LabelHeap) (r : Nat) (k v : String) :
    (h.insertAt r k v).maps.length = h.maps.length := by
  unfold LabelHeap.insertAt
  simp

theorem LabelHeap.read_foldl_insertAt_ne (L : List (String × String)) (h : LabelHeap)
    (r r' : Nat) (hne : r ≠ r') :
    (L.foldl (fun hh p => hh.insertAt r p.1 p.2) h).read r' = h.read r' := by
  induction L generalizing h with
  | nil => rfl
  | cons p rest ih =>
    rw [List.foldl_cons, ih, LabelHeap.read_insertAt_ne _ _ _ _ _ hne]

theorem LabelHeap.length_foldl_insertAt (L : List (String × String)) (h : LabelHeap) (r : Nat) :
    (L.foldl (fun hh p => hh.insertAt r p.1 p.2) h).maps.length = h.maps.length := by
  induction L generalizing h with
  | nil => rfl
  | cons p rest ih =>
    rw [List.foldl_cons, ih, LabelHeap.length_insertAt]

theorem LabelHeap.read_foldl_insertAt_self (L : List (String × String)) (h : LabelHeap)
    (r : Nat) (hr : r < h.maps.length) :
    (L.foldl (fun hh p => hh.insertAt r p.1 p.2) h).read r =
      L.foldl (fun m p => mapInsert m p.1 p.2) (h.read r) := by
  induction L generalizing h with
  | nil => rfl
  | cons p rest ih =>
    rw [List.foldl_cons, List.foldl_cons,
      ih _ (by rw [LabelHeap.length_insertAt]; exact hr),
      LabelHeap.read_insertAt_self _ _ _ _ hr]

theorem LabelHeap.read_alloc_old (h : LabelHeap) (r : Nat) (hr : r < h.maps.length) :
    h.alloc.1.read r = h.read r := by
  unfold LabelHeap.alloc LabelHeap.read
  simp [List.getD, List.getElem?_append_left hr]

theorem LabelHeap.read_alloc_fresh (h : LabelHeap) :
    h.alloc.1.read h.alloc.2 = [] := by
  unfold LabelHeap.alloc LabelHeap.read
  simp [List.getD]

/-! ## Data model of the reconciliation engine -/

/-- cloudresourcemanager.Project, as used by credentials.go. -/
structure Project where
  name : String
  projectId : String
  labels : List (String × String)
  projectNumber : Int
deriving DecidableEq

/-- cloudbilling.BillingAccount, as used by credentials.go: Name, DisplayName
and the Open flag. -/
structure BillingAccount where
  name : String
  displayName : String
  isOpen : Bool
deriving DecidableEq

/-- cloudbilling.ProjectBillingInfo, as used by credentials.go. -/
structure ProjectBillingInfo where
  billingAccountName : String
  billingEnabled : Bool
deriving DecidableEq

/-- A long-running operation handle (cloudresourcemanager.Operation and
serviceusage.Operation are used identically): Name, optional Error with Code
and Message, and the Done flag. -/
structure Operation where
  name : String
  opError : Option (Int × String)
  done : Bool
deriving DecidableEq

/-- An entry of the serviceusage Services.List response, as read by the code:
s.Config.Name, s.Config.Title, s.State, and s.Config.Documentation.Summary
when Documentation is non-nil. -/
structure ServiceInfo where
  configName : String
  configTitle : String
  state : String
  docSummary : Option String
deriving DecidableEq

/-- Error returned by a remote call: either a googleapi.Error carrying a
status code, or some other error. -/
inductive GoErr
  | api (code : Int)
  | other
deriving DecidableEq

/-- Embeds the Go type assertion err.(*googleapi.Error) followed by reading
e.Code: the status code when the error is a googleapi.Error. -/
def goErrCode : GoErr → Option Int
  | .api c => some c
  | .other => none

/-- The ProjectSpec record of credentials.go (identical in both evolutions):
Name, ID, Labels, APIs, Billing. -/
structure ProjectSpec where
  name : String
  id : String
  labels : List (String × String)
  apis : List String
  billing : String
deriving DecidableEq

/-- One remote call issued by a run, recorded in order. -/
inductive Call
  | projectsGet
  | projectsCreate (p : Project)
  | operationsGet
  | getBillingInfo
  | billingAccountsList
  | updateBillingInfo (account : String)
  | servicesList
  | batchEnable (serviceIds : List String)
deriving DecidableEq

/-- A call that mutates remote state: project creation, billing update, or
batch enablement. -/
def Call.isMutating : Call → Bool
  | .projectsCreate _ => true
  | .updateBillingInfo _ => true
  | .batchEnable _ => true
  | _ => false

/-- Recognizes a batch-enable call. -/
def Call.isBatchEnable : Call → Bool
  | .batchEnable _ => true
  | _ => false

/-- Error from the operation-wait loops of credentials.go: the operation
itself reported an error, the status fetch failed, or the context deadline
elapsed before completion. -/
inductive WaitError
  | opFailed (code : Int) (msg : String)
  | fetchFailed
  | timeout
deriving DecidableEq

/-- The error taxonomy surfaced by the two reconciliation paths, one
constructor per distinct error return in the source. -/
inductive RunError
  | credsError
  | validation (name : String)
  | serviceInitError
  | getProjectError (e : GoErr)
  | createCallError
  | createWaitError (w : WaitError)
  | getAfterCreateError
  | bootstrapEnableCallError
  | bootstrapWaitError (w : WaitError)
  | billingInitError
  | getBillingError
  | listAccountsError
  | ambiguousBilling (total openCount : Nat)
  | updateBillingCallError
  | billingNotEnabled (info : ProjectBillingInfo)
  | apiInitError
  | listServicesError
  | noSuchAPI (name : String)
  | batchLimit (count : Nat)
  | batchEnableCallError
  | enableWaitError (w : WaitError)
deriving DecidableEq

/-! ## Operation poller

waitForCreate and waitForEnable in credentials.go have identical bodies (one
per service type).  The ticker fires every 400ms; each tick performs a status
fetch with the ambient context.  Once the context deadline has elapsed, the
fetch call fails locally with the context error before reaching the remote
service, so the number of remote status fetches is the number of ticks that
fit inside the deadline; we pass that number (`deadlineTicks`) explicitly.
The result pairs the outcome with the number of remote status fetches made. -/

/-- The ticker loop of waitForCreate / waitForEnable.  `fetch i` is the result
of the status fetch at tick `i`; when the remaining tick budget is exhausted
the context has expired and the loop returns the deadline error without
another remote fetch. -/
def pollLoop (fetch : Nat → Except Unit Operation) : Nat → Nat → Except WaitError Unit × Nat
  | 0, _ => (.error .timeout, 0)
  | fuel + 1, i =>
    match fetch i with
    | .error _ => (.error .fetchFailed, 1)
    | .ok op =>
      match op.opError with
      | some (c, m) => (.error (.opFailed c m), 1)
      | none =>
        if op.done then (.ok (), 1)
        else
          let r := pollLoop fetch fuel (i + 1)
          (r.1, r.2 + 1)

/-- Embeds the shared body of waitForCreate and waitForEnable: return the
initial handle's error immediately; return success if it is already done;
otherwise poll until error, completion, or context deadline. -/
def waitForOperation (op : Operation) (fetch : Nat → Except Unit Operation)
    (deadlineTicks : Nat) : Except WaitError Unit × Nat :=
  match op.opError with
  | some (c, m) => (.error (.opFailed c m), 0)
  | none =>
    if op.done then (.ok (), 0)
    else pollLoop fetch deadlineTicks 0

/-- waitForCreate of credentials.go (both evolutions have the same body). -/
def waitForCreate (op : Operation) (fetch : Nat → Except Unit Operation)
    (deadlineTicks : Nat) : Except WaitError Unit × Nat :=
  waitForOperation op fetch deadlineTicks

/-- waitForEnable of credentials.go (both evolutions have the same body). -/
def waitForEnable (op : Operation) (fetch : Nat → Except Unit Operation)
    (deadlineTicks : Nat) : Except WaitError Unit × Nat :=
  waitForOperation op fetch deadlineTicks

/-! ## The remote world oracle

All remote services are collaborators: a `World` fixes the response every
call would receive, so a run is a pure function of the world and the spec. -/

/-- Backing remote state and infrastructure responses for one run. -/
structure World where
  credsResult : Except Unit Unit
  crmInit : Except Unit Unit
  apiInit : Except Unit Unit
  billingInit : Except Unit Unit
  now : String
  getProject : Except GoErr Project
  createResult : Except Unit Operation
  createPoll : Nat → Except Unit Operation
  createDeadlineTicks : Nat
  getProjectAfterCreate : Except Unit Project
  bootstrapEnableResult : Except Unit Operation
  bootstrapPoll : Nat → Except Unit Operation
  bootstrapDeadlineTicks : Nat
  getBillingInfo : Except Unit ProjectBillingInfo
  listAccounts : Except Unit (List BillingAccount)
  updateBillingResult : Except Unit ProjectBillingInfo
  listServices : Except Unit (List ServiceInfo)
  batchEnableResult : Except Unit Operation
  enablePoll : Nat → Except Unit Operation
  enableDeadlineTicks : Nat

/-! ## Shared reconciliation steps -/

/-- Embeds the billing-account resolution of credentials.go (apply lines
782-808 with sentinel "enable", sync lines 281-306 with sentinel ""): if the
spec billing field equals the auto-select sentinel, list the billing
accounts, keep the open ones, and require exactly one; otherwise use the
spec's literal account reference with no call. -/
def resolveBillingAccount (w : World) (specBilling sentinel : String) :
    Except RunError String × List Call :=
  if specBilling == sentinel then
    match w.listAccounts with
    | .error _ => (.error .listAccountsError, [.billingAccountsList])
    | .ok accounts =>
      let openAccounts := accounts.filter (fun a => a.isOpen)
      if h : openAccounts.length = 1 then
        (.ok (openAccounts.get ⟨0, by omega⟩).name, [.billingAccountsList])
      else
        (.error (.ambiguousBilling accounts.length openAccounts.length),
          [.billingAccountsList])
  else
    (.ok specBilling, [])

/-- Embeds the billing-update block of credentials.go (apply lines 810-828,
sync lines 308-326): if the current billing link differs from the resolved
account, submit an update; a successful update call whose response still
reports BillingEnabled false is its own fatal error. -/
def updateBillingStep (w : World) (billingInfo : ProjectBillingInfo) (account : String) :
    Except RunError Unit × List Call :=
  if billingInfo.billingAccountName != account then
    match w.updateBillingResult with
    | .error _ => (.error .updateBillingCallError, [.updateBillingInfo account])
    | .ok updated =>
      if !updated.billingEnabled then
        (.error (.billingNotEnabled updated), [.updateBillingInfo account])
      else
        (.ok (), [.updateBillingInfo account])
  else
    (.ok (), [])

/-- The per-API record built by sync from a Services.List entry. -/
structure ApiEntry where
  name : String
  title : String
  summary : String
  enabled : Bool
deriving DecidableEq

/-- Embeds the map-building loop of sync (lines 348-361): one entry per
service keyed on s.Config.Name, enabled iff s.State == "ENABLED", summary
copied when Documentation is non-nil. -/
def buildApisMap (services : List ServiceInfo) : List (String × ApiEntry) :=
  services.foldl
    (fun acc s =>
      let entry : ApiEntry :=
        { name := s.configName
          title := s.configTitle
          summary :=
            match s.docSummary with
            | some d => d
            | none => ""
          enabled := s.state == "ENABLED" }
      mapInsert acc s.configName entry)
    []

/-- Embeds the diff loop of sync (lines 363-379): normalize each requested
API, fail on the first one absent from the catalog, and keep the ones not
currently enabled. -/
def computeToEnableSync (requested : List String) (apis : List (String × ApiEntry)) :
    Except RunError (List String) :=
  match requested with
  | [] => .ok []
  | r :: rest =>
    let rNorm := normalizeAPI r
    match mapLookup apis rNorm with
    | none => .error (.noSuchAPI rNorm)
    | some info =>
      match computeToEnableSync rest apis with
      | .error e => .error e
      | .ok tl => .ok (if !info.enabled then rNorm :: tl else tl)

/-- Embeds the enable-list loop of apply (lines 830-840): every requested API
is normalized and kept; no diff against the catalog is computed. -/
def applyToEnable (requested : List String) : List String :=
  requested.map normalizeAPI

/-- Embeds the batch-enable block of credentials.go (apply lines 842-865,
sync lines 381-403): nothing to do on an empty list; reject a list longer
than 20 before submitting; otherwise submit one batch and wait. -/
def enableStep (w : World) (toEnable : List String) : Except RunError Unit × List Call :=
  if toEnable.length > 0 then
    if toEnable.length > 20 then
      (.error (.batchLimit toEnable.length), [])
    else
      match w.batchEnableResult with
      | .error _ => (.error .batchEnableCallError, [.batchEnable toEnable])
      | .ok enableOp =>
        let r := waitForEnable enableOp w.enablePoll w.enableDeadlineTicks
        let tr := Call.batchEnable toEnable :: List.replicate r.2 .operationsGet
        match r.1 with
        | .error we => (.error (.enableWaitError we), tr)
        | .ok _ => (.ok (), tr)
  else
    (.ok (), [])

/-! ## The sync path (older evolution) -/

/-- Embeds sync after the project has been obtained (lines 265-405): billing
service init, billing fetch, account resolution with sentinel "", billing
update, service-usage init, service listing, diff, batch enable. -/
def syncAfterProject (w : World) (spec : ProjectSpec) (project : Project) (tr : List Call) :
    Except RunError Unit × List Call :=
  match w.billingInit with
  | .error _ => (.error .billingInitError, tr)
  | .ok _ =>
    match w.getBillingInfo with
    | .error _ => (.error .getBillingError, tr ++ [.getBillingInfo])
    | .ok billingInfo =>
      let acc := resolveBillingAccount w spec.billing ""
      let tr := tr ++ [Call.getBillingInfo] ++ acc.2
      match acc.1 with
      | .error e => (.error e, tr)
      | .ok account =>
        let upd := updateBillingStep w billingInfo account
        let tr := tr ++ upd.2
        match upd.1 with
        | .error e => (.error e, tr)
        | .ok _ =>
          match w.apiInit with
          | .error _ => (.error .apiInitError, tr)
          | .ok _ =>
            match w.listServices with
            | .error _ => (.error .listServicesError, tr ++ [.servicesList])
            | .ok services =>
              let tr := tr ++ [Call.servicesList]
              match computeToEnableSync spec.apis (buildApisMap services) with
              | .error e => (.error e, tr)
              | .ok toEnable =>
                let en := enableStep w toEnable
                (en.1, tr ++ en.2)

/-- Embeds sync of credentials.go (lines 203-406), the older reconciliation
path, with the spec already read.  There is no local validation (the source
carries a TODO in its place).  A 403 from the project fetch is treated as
"project does not exist" and triggers the create path with marker label
"gproj-created-at" set to the current time. -/
def syncRun (w : World) (spec : ProjectSpec) : Except RunError Unit × List Call :=
  match w.crmInit with
  | .error _ => (.error .serviceInitError, [])
  | .ok _ =>
    match w.getProject with
    | .ok project => syncAfterProject w spec project [.projectsGet]
    | .error e =>
      if goErrCode e == some 403 then
        let project : Project :=
          { name := spec.name
            projectId := spec.id
            labels := buildCreatedLabels spec.labels "gproj-created-at" w.now
            projectNumber := 0 }
        match w.createResult with
        | .error _ => (.error .createCallError, [.projectsGet, .projectsCreate project])
        | .ok createOp =>
          let res := waitForCreate createOp w.createPoll w.createDeadlineTicks
          let tr := [Call.projectsGet, .projectsCreate project]
            ++ List.replicate res.2 .operationsGet
          match res.1 with
          | .error we => (.error (.createWaitError we), tr)
          | .ok _ =>
            match w.getProjectAfterCreate with
            | .error _ => (.error .getAfterCreateError, tr ++ [.projectsGet])
            | .ok project2 => syncAfterProject w spec project2 (tr ++ [.projectsGet])
      else
        (.error (.getProjectError e), [.projectsGet])

/-! ## The apply path (newer evolution) -/

/-- Embeds apply after the project has been obtained (lines 769-869): billing
service init, billing fetch, account resolution with sentinel "enable",
billing update, normalization of every requested API with no diff, batch
enable. -/
def applyAfterProject (w : World) (spec : ProjectSpec) (project : Project) (tr : List Call) :
    Except RunError Unit × List Call :=
  match w.billingInit with
  | .error _ => (.error .billingInitError, tr)
  | .ok _ =>
    match w.getBillingInfo with
    | .error _ => (.error .getBillingError, tr ++ [.getBillingInfo])
    | .ok billingInfo =>
      let acc := resolveBillingAccount w spec.billing "enable"
      let tr := tr ++ [Call.getBillingInfo] ++ acc.2
      match acc.1 with
      | .error e => (.error e, tr)
      | .ok account =>
        let upd := updateBillingStep w billingInfo account
        let tr := tr ++ upd.2
        match upd.1 with
        | .error e => (.error e, tr)
        | .ok _ =>
          let en := enableStep w (applyToEnable spec.apis)
          (en.1, tr ++ en.2)

/-- Embeds apply of credentials.go (lines 678-870), the newer reconciliation
path, with the spec already read: credential acquisition, local name-length
validation (at least 4 bytes) before any remote call, project fetch with the
403-means-absent convention, creation with marker label "managed-by"="gproj",
bootstrap enablement of the cloud billing API after creation, then the
billing and enablement stages. -/
def applyRun (w : World) (spec : ProjectSpec) : Except RunError Unit × List Call :=
  match w.credsResult with
  | .error _ => (.error .credsError, [])
  | .ok _ =>
    if spec.name.utf8ByteSize < 4 then
      (.error (.validation spec.name), [])
    else
      match w.crmInit with
      | .error _ => (.error .serviceInitError, [])
      | .ok _ =>
        match w.apiInit with
        | .error _ => (.error .apiInitError, [])
        | .ok _ =>
          match w.getProject with
          | .ok project => applyAfterProject w spec project [.projectsGet]
          | .error e =>
            if goErrCode e == some 403 then
              let project : Project :=
                { name := spec.name
                  projectId := spec.id
                  labels := buildCreatedLabels spec.labels "managed-by" "gproj"
                  projectNumber := 0 }
              match w.createResult with
              | .error _ => (.error .createCallError, [.projectsGet, .projectsCreate project])
              | .ok createOp =>
                let res := waitForCreate createOp w.createPoll w.createDeadlineTicks
                let tr := [Call.projectsGet, .projectsCreate project]
                  ++ List.replicate res.2 .operationsGet
                match res.1 with
                | .error we => (.error (.createWaitError we), tr)
                | .ok _ =>
                  match w.getProjectAfterCreate with
                  | .error _ => (.error .getAfterCreateError, tr ++ [.projectsGet])
                  | .ok project2 =>
                    let tr := tr ++ [Call.projectsGet]
                    match w.bootstrapEnableResult with
                    | .error _ =>
                      (.error .bootstrapEnableCallError,
                        tr ++ [.batchEnable ["cloudbilling.googleapis.com"]])
                    | .ok bootstrapOp =>
                      let bres := waitForEnable bootstrapOp w.bootstrapPoll
                        w.bootstrapDeadlineTicks
                      let tr := tr ++ [Call.batchEnable ["cloudbilling.googleapis.com"]]
                        ++ List.replicate bres.2 .operationsGet
                      match bres.1 with
                      | .error we => (.error (.bootstrapWaitError we), tr)
                      | .ok _ => applyAfterProject w spec project2 tr
            else
              (.error (.getProjectError e), [.projectsGet])

/-! ## The catalog cache (apis.go) -/

/-- The api record of apis.go. -/
structure Api where
  name : String
  title : String
  summary : String
  enabled : Bool
deriving DecidableEq

/-- Embeds firstLine of apis.go: everything before the first newline, or the
whole string when it has no newline. -/
def firstLine (s : String) : String :=
  String.mk (s.data.takeWhile (fun c => !(c == '\n')))

/-- Filesystem and remote responses backing one catalog lookup. -/
structure CacheWorld where
  userCacheDir : Except Unit String
  mkdirResult : Except Unit Unit
  cacheFileContent : Except Unit String
  unmarshal : String → Except Unit (List Api)
  servicePages : Except Unit (List ServiceInfo)
  marshal : List Api → Except Unit String
  writeResult : Except Unit Unit

/-- One filesystem or remote action taken during a catalog lookup. -/
inductive CacheCall
  | readCacheFile
  | liveFetch
  | writeCacheFile
deriving DecidableEq

/-- Errors surfaced by the catalog cache of apis.go. -/
inductive CacheErr
  | decodeError (path : String)
  | liveFetchError
  | marshalError
  | writeError
deriving DecidableEq

/-- Embeds cacheDir of apis.go: the user cache root joined with "gproj" and
the decimal project number; creating the directory may fail. -/
def cacheDirResult (w : CacheWorld) (projectNumber : Int) : Except Unit String :=
  match w.userCacheDir with
  | .error _ => .error ()
  | .ok root =>
    match w.mkdirResult with
    | .error _ => .error ()
    | .ok _ => .ok (root ++ "/gproj/" ++ toString projectNumber)

/-- Embeds pullAvailableAPIs of apis.go: exhaust the paginated service list,
build one api record per entry (summary truncated to its first line), and
sort ascending by name. -/
def pullAvailableAPIs (w : CacheWorld) : Except CacheErr (List Api) × List CacheCall :=
  match w.servicePages with
  | .error _ => (.error .liveFetchError, [.liveFetch])
  | .ok services =>
    let apis := services.map (fun s =>
      { name := s.configName
        title := s.configTitle
        summary :=
          match s.docSummary with
          | some d => firstLine d
          | none => ""
        enabled := s.state == "ENABLED" : Api })
    (.ok (apis.mergeSort (fun a b => a.name ≤ b.name)), [.liveFetch])

/-- Embeds pullAndStoreAvailableAPIs of apis.go: pull, marshal, write the
cache file, and return the pulled listing. -/
def pullAndStoreAvailableAPIs (w : CacheWorld) (path : String) :
    Except CacheErr (List Api) × List CacheCall :=
  let pulled := pullAvailableAPIs w
  match pulled.1 with
  | .error e => (.error e, pulled.2)
  | .ok apis =>
    match w.marshal apis with
    | .error _ => (.error .marshalError, pulled.2)
    | .ok _ =>
      match w.writeResult with
      | .error _ => (.error .writeError, pulled.2 ++ [.writeCacheFile])
      | .ok _ => (.ok apis, pulled.2 ++ [.writeCacheFile])

/-- Embeds availableAPIs of apis.go: a failure to prepare the cache directory
degrades to an uncached pull; a missing cache file triggers pull-and-store; a
present cache file is decoded and returned as-is, and a decode failure is a
fatal error carrying the corrupt cache path. -/
def availableAPIs (w : CacheWorld) (projectNumber : Int) :
    Except CacheErr (List Api) × List CacheCall :=
  match cacheDirResult w projectNumber with
  | .error _ => pullAvailableAPIs w
  | .ok dir =>
    let cachePath := dir ++ "/available-apis.json"
    match w.cacheFileContent with
    | .error _ =>
      let r := pullAndStoreAvailableAPIs w cachePath
      (r.1, CacheCall.readCacheFile :: r.2)
    | .ok cached =>
      match w.unmarshal cached with
      | .error _ => (.error (.decodeError cachePath), [.readCacheFile])
      | .ok apis => (.ok apis, [.readCacheFile])

instance {ε α : Type} [DecidableEq ε] [DecidableEq α] : DecidableEq (Except ε α) :=
  fun x y =>
    match x, y with
    | .ok a, .ok b =>
      if h : a = b then .isTrue (by rw [h])
      else .isFalse (fun hc => h (Except.ok.inj hc))
    | .error a, .error b =>
      if h : a = b then .isTrue (by rw [h])
      else .isFalse (fun hc => h (Except.error.inj hc))
    | .ok _, .error _ => .isFalse (fun hc => Except.noConfusion hc)
    | .error _, .ok _ => .isFalse (fun hc => Except.noConfusion hc)

/-! ## Supporting lemmas about the steps -/

theorem resolveBillingAccount_calls (w : World) (sb sent : String) :
    ∀ c ∈ (resolveBillingAccount w sb sent).2, c = Call.billingAccountsList := by
  intro c hc
  unfold resolveBillingAccount at hc
  split at hc
  · split at hc
    · simp at hc; exact hc
    · dsimp only at hc
      split at hc <;> (simp at hc; exact hc)
  · simp at hc

theorem updateBillingStep_calls (w : World) (b : ProjectBillingInfo) (account : String) :
    ∀ c ∈ (updateBillingStep w b account).2, c = Call.updateBillingInfo account := by
  intro c hc
  unfold updateBillingStep at hc
  split at hc
  · split at hc
    · simp at hc; exact hc
    · split at hc <;> (simp at hc; exact hc)
  · simp at hc

theorem updateBillingStep_same_account (w : World) (b : ProjectBillingInfo) :
    updateBillingStep w b b.billingAccountName = (.ok (), []) := by
  simp [updateBillingStep]

theorem enableStep_nil (w : World) : enableStep w [] = (.ok (), []) := rfl

theorem enableStep_calls (w : World) (l : List String) :
    ∀ c ∈ (enableStep w l).2, c = Call.batchEnable l ∨ c = Call.operationsGet := by
  intro c hc
  unfold enableStep at hc
  split at hc
  · split at hc
    · simp at hc
    · split at hc
      · simp at hc; exact .inl hc
      · dsimp only at hc
        split at hc <;>
          (simp at hc
           rcases hc with hc | hc
           · exact .inl hc
           · exact .inr hc.2)
  · simp at hc

theorem enableStep_over_limit (w : World) (l : List String) (h : l.length > 20) :
    enableStep w l = (.error (.batchLimit l.length), []) := by
  unfold enableStep
  rw [if_pos (by omega), if_pos h]

theorem enableStep_batch_mem (w : World) (l : List String)
    (h0 : 0 < l.length) (h20 : l.length ≤ 20) :
    Call.batchEnable l ∈ (enableStep w l).2 := by
  unfold enableStep
  rw [if_pos h0, if_neg (by omega)]
  cases w.batchEnableResult with
  | error _ => simp
  | ok op =>
    cases hr : (waitForEnable op w.enablePoll w.enableDeadlineTicks).1 <;> simp [hr]

theorem computeToEnableSync_all_enabled (requested : List String)
    (apis : List (String × ApiEntry))
    (h : ∀ r ∈ requested,
      (mapLookup apis (normalizeAPI r)).map (fun e => e.enabled) = some true) :
    computeToEnableSync requested apis = .ok [] := by
  induction requested with
  | nil => rfl
  | cons r rest ih =>
    have hr := h r (List.mem_cons_self r rest)
    rw [Option.map_eq_some'] at hr
    obtain ⟨e, he, hen⟩ := hr
    rw [computeToEnableSync]
    simp only [he, ih (fun x hx => h x (List.mem_cons_of_mem r hx)), hen]
    rfl

/-! ## Concrete worlds used as witnesses -/

/-- An already-done operation handle. -/
def okOp : Operation := { name := "operation-1", opError := none, done := true }

/-- A project as the backing state returns it. -/
def exProject : Project :=
  { name := "Example Project"
    projectId := "example-project"
    labels := [("team", "infra")]
    projectNumber := 123456 }

/-- A billing link in the converged state. -/
def exBillingInfo : ProjectBillingInfo :=
  { billingAccountName := "billingAccounts/000000-AAAAAA-000000"
    billingEnabled := true }

/-- A backing world where every remote call succeeds and the project already
matches the example spec. -/
def exWorldBase : World :=
  { credsResult := .ok ()
    crmInit := .ok ()
    apiInit := .ok ()
    billingInit := .ok ()
    now := "2026-10-11 00:00:00"
    getProject := .ok exProject
    createResult := .ok okOp
    createPoll := fun _ => .ok okOp
    createDeadlineTicks := 12
    getProjectAfterCreate := .ok exProject
    bootstrapEnableResult := .ok okOp
    bootstrapPoll := fun _ => .ok okOp
    bootstrapDeadlineTicks := 12
    getBillingInfo := .ok exBillingInfo
    listAccounts := .ok
      [{ name := "billingAccounts/000000-AAAAAA-000000"
         displayName := "My Billing Account"
         isOpen := true }]
    updateBillingResult := .ok exBillingInfo
    listServices := .ok
      [{ configName := "compute.googleapis.com"
         configTitle := "Compute Engine API"
         state := "ENABLED"
         docSummary := none }]
    batchEnableResult := .ok okOp
    enablePoll := fun _ => .ok okOp
    enableDeadlineTicks := 12 }

/-- A spec that matches the converged backing state of exWorldBase. -/
def exSpecConverged : ProjectSpec :=
  { name := "Example Project"
    id := "example-project"
    labels := [("team", "infra")]
    apis := ["compute"]
    billing := "billingAccounts/000000-AAAAAA-000000" }

/-! ## Claim theorems -/

/-- C10: the API-name normalization is idempotent; a normalized name always
contains a dot, so a second pass leaves it unchanged. -/
theorem C10_normalize_idempotent (s : String) :
    normalizeAPI (normalizeAPI s) = normalizeAPI s := by
  unfold normalizeAPI
  by_cases h : containsDot s
  · simp [h]
  · rw [Bool.not_eq_true] at h
    simp [h, containsDot_append_suffix]

/-- C5: a requested API name with no domain separator is rewritten by
appending ".googleapis.com"; a name already containing a dot passes through
unchanged. -/
theorem C5_normalization (s : String) :
    (containsDot s = false → normalizeAPI s = s ++ ".googleapis.com") ∧
    (containsDot s = true → normalizeAPI s = s) := by
  constructor <;> intro h <;> simp [normalizeAPI, h]

theorem C5_witness :
    normalizeAPI "compute" = "compute" ++ ".googleapis.com" ∧
    normalizeAPI "storage.googleapis.com" = "storage.googleapis.com" :=
  ⟨(C5_normalization "compute").1 (by decide),
   (C5_normalization "storage.googleapis.com").2 (by decide)⟩

theorem pollLoop_timeout (fetch : Nat → Except Unit Operation) (fuel : Nat) :
    ∀ i : Nat,
    (∀ j, i ≤ j → j < i + fuel →
      ∃ o, fetch j = .ok o ∧ o.opError = none ∧ o.done = false) →
    pollLoop fetch fuel i = (.error .timeout, fuel) := by
  induction fuel with
  | zero => intro i _; rfl
  | succ n ih =>
    intro i h
    obtain ⟨o, ho, hoe, hod⟩ := h i (le_refl i) (by omega)
    rw [pollLoop]
    simp only [ho, hoe, hod, Bool.false_eq_true, if_false]
    rw [ih (i + 1) (fun j hj1 hj2 => h j (by omega) (by omega))]

/-- C7: an operation handle that never reports done within the deadline makes
the wait loop return the timeout error, and polling stops at the deadline:
the number of status fetches equals the number of ticks that fit inside the
deadline, with none afterwards. -/
theorem C7_poller_timeout (op : Operation) (fetch : Nat → Except Unit Operation)
    (deadlineTicks : Nat)
    (hinit : op.opError = none) (hdone : op.done = false)
    (hfetch : ∀ j, j < deadlineTicks →
      ∃ o, fetch j = .ok o ∧ o.opError = none ∧ o.done = false) :
    waitForCreate op fetch deadlineTicks = (.error .timeout, deadlineTicks) := by
  unfold waitForCreate waitForOperation
  rw [hinit]
  simp only [hdone, Bool.false_eq_true, if_false]
  exact pollLoop_timeout fetch deadlineTicks 0 (fun j _ hj => hfetch j (by omega))

theorem C7_witness :
    waitForCreate ⟨"op1", none, false⟩ (fun _ => .ok ⟨"op1", none, false⟩) 3 =
      (.error .timeout, 3) :=
  C7_poller_timeout ⟨"op1", none, false⟩ (fun _ => .ok ⟨"op1", none, false⟩) 3
    rfl rfl (fun j _ => ⟨⟨"op1", none, false⟩, rfl, rfl, rfl⟩)

/-- C3: with the auto-select sentinel as the billing reference, the engine
lists billing accounts and keeps the open ones: exactly one open account is
selected by name; zero or several open accounts is the ambiguity error
carrying the total count and the open count.  syncRun instantiates the
sentinel as "" and applyRun as "enable". -/
theorem C3_billing_autoselect (w : World) (specBilling sentinel : String)
    (accounts : List BillingAccount)
    (hsent : specBilling = sentinel)
    (hlist : w.listAccounts = .ok accounts) :
    (∀ a, accounts.filter (fun x => x.isOpen) = [a] →
      resolveBillingAccount w specBilling sentinel =
        (.ok a.name, [.billingAccountsList])) ∧
    ((accounts.filter (fun x => x.isOpen)).length ≠ 1 →
      resolveBillingAccount w specBilling sentinel =
        (.error (.ambiguousBilling accounts.length
          (accounts.filter (fun x => x.isOpen)).length),
         [.billingAccountsList])) := by
  constructor
  · intro a ha
    unfold resolveBillingAccount
    rw [if_pos (by simp [hsent]), hlist]
    dsimp only
    simp [ha]
  · intro hne
    unfold resolveBillingAccount
    rw [if_pos (by simp [hsent]), hlist]
    dsimp only
    rw [dif_neg hne]

theorem C3_witness :
    (resolveBillingAccount
      { exWorldBase with
        listAccounts :=
          .ok [⟨"billingAccounts/A", "Closed A", false⟩, ⟨"billingAccounts/B", "Open B", true⟩] }
      "enable" "enable" =
      (.ok "billingAccounts/B", [.billingAccountsList])) ∧
    (resolveBillingAccount
      { exWorldBase with
        listAccounts :=
          .ok [⟨"billingAccounts/A", "Open A", true⟩, ⟨"billingAccounts/B", "Open B", true⟩] }
      "" "" =
      (.error (.ambiguousBilling 2 2), [.billingAccountsList])) := by
  constructor
  · exact (C3_billing_autoselect _ "enable" "enable"
      [⟨"billingAccounts/A", "Closed A", false⟩, ⟨"billingAccounts/B", "Open B", true⟩]
      rfl rfl).1 ⟨"billingAccounts/B", "Open B", true⟩ (by decide)
  · exact (C3_billing_autoselect _ "" ""
      [⟨"billingAccounts/A", "Open A", true⟩, ⟨"billingAccounts/B", "Open B", true⟩]
      rfl rfl).2 (by decide)

/-- C4: when the resolved account differs from the current billing link the
engine submits an update; a call-level success whose response still reports
billing disabled is its own fatal error, distinct from the call-failure
error; when the resolved account equals the current link no update call is
made. -/
theorem C4_billing_update_check (w : World) (billingInfo : ProjectBillingInfo)
    (account : String) (updated : ProjectBillingInfo) :
    (billingInfo.billingAccountName = account →
      updateBillingStep w billingInfo account = (.ok (), [])) ∧
    (billingInfo.billingAccountName ≠ account →
      Call.updateBillingInfo account ∈ (updateBillingStep w billingInfo account).2) ∧
    (billingInfo.billingAccountName ≠ account →
      w.updateBillingResult = .ok updated →
      updated.billingEnabled = false →
      updateBillingStep w billingInfo account =
        (.error (.billingNotEnabled updated), [.updateBillingInfo account]) ∧
      RunError.billingNotEnabled updated ≠ RunError.updateBillingCallError) := by
  refine ⟨fun heq => ?_, fun hne => ?_, fun hne hupd hdis => ⟨?_, by intro hc; cases hc⟩⟩
  · simp [updateBillingStep, heq]
  · unfold updateBillingStep
    rw [if_pos (by simp [hne])]
    cases w.updateBillingResult with
    | error _ => simp
    | ok u => by_cases hu : u.billingEnabled <;> simp [hu]
  · unfold updateBillingStep
    rw [if_pos (by simp [hne]), hupd]
    simp [hdis]

theorem C4_witness :
    (updateBillingStep exWorldBase
      ⟨"billingAccounts/current", true⟩ "billingAccounts/current" = (.ok (), [])) ∧
    (updateBillingStep
      { exWorldBase with updateBillingResult := .ok ⟨"billingAccounts/new", false⟩ }
      ⟨"billingAccounts/current", true⟩ "billingAccounts/new" =
      (.error (.billingNotEnabled ⟨"billingAccounts/new", false⟩),
       [.updateBillingInfo "billingAccounts/new"])) :=
  ⟨(C4_billing_update_check exWorldBase ⟨"billingAccounts/current", true⟩
      "billingAccounts/current" ⟨"", false⟩).1 rfl,
   ((C4_billing_update_check
      { exWorldBase with updateBillingResult := .ok ⟨"billingAccounts/new", false⟩ }
      ⟨"billingAccounts/current", true⟩ "billingAccounts/new"
      ⟨"billingAccounts/new", false⟩).2.2 (by decide) rfl rfl).1⟩

/-- C8: with the cache directory prepared and a cache document present, the
document is decoded and returned as-is with no live fetch; a decode failure
is a fatal error carrying the corrupt cache path, again with no fallback to
a live fetch.  In both cases the only action taken is the cache-file read. -/
theorem C8_cache_decode (w : CacheWorld) (n : Int) (dir cached : String)
    (hdir : cacheDirResult w n = .ok dir)
    (hread : w.cacheFileContent = .ok cached) :
    (∀ apis, w.unmarshal cached = .ok apis →
      availableAPIs w n = (.ok apis, [.readCacheFile])) ∧
    (w.unmarshal cached = .error () →
      availableAPIs w n =
        (.error (.decodeError (dir ++ "/available-apis.json")), [.readCacheFile])) := by
  unfold availableAPIs
  rw [hdir, hread]
  constructor
  · intro apis hu
    dsimp only
    rw [hu]
  · intro hu
    dsimp only
    rw [hu]

/-- A cache world whose cache file is present and decodes. -/
def exCacheWorldOk : CacheWorld :=
  { userCacheDir := .ok "/home/user/.cache"
    mkdirResult := .ok ()
    cacheFileContent := .ok "[cached-doc]"
    unmarshal := fun _ => .ok [⟨"compute.googleapis.com", "Compute Engine API", "VMs", true⟩]
    servicePages := .ok []
    marshal := fun _ => .ok "[]"
    writeResult := .ok () }

theorem C8_witness :
    (availableAPIs exCacheWorldOk 123456 =
      (.ok [⟨"compute.googleapis.com", "Compute Engine API", "VMs", true⟩],
       [.readCacheFile])) ∧
    (availableAPIs { exCacheWorldOk with unmarshal := fun _ => .error () } 123456 =
      (.error (.decodeError "/home/user/.cache/gproj/123456/available-apis.json"),
       [.readCacheFile])) := by
  constructor
  · exact (C8_cache_decode exCacheWorldOk 123456 "/home/user/.cache/gproj/123456"
      "[cached-doc]" (by decide) rfl).1
      [⟨"compute.googleapis.com", "Compute Engine API", "VMs", true⟩] rfl
  · exact (C8_cache_decode { exCacheWorldOk with unmarshal := fun _ => .error () } 123456
      "/home/user/.cache/gproj/123456" "[cached-doc]" (by decide) rfl).2 rfl

/-- C9: the create-path label copy never mutates the spec's label map: the
spec map reads back unchanged after the copy, the created project's map is
exactly the pure copy of the spec labels with the management marker merged
in, and its bindings are the spec bindings plus the marker key. -/
theorem C9_labels_frame (h : LabelHeap) (specRef : Nat) (markerKey markerVal : String)
    (href : specRef < h.maps.length)
    (hnd : (h.read specRef).Pairwise (fun a b => a.1 ≠ b.1)) :
    ((buildProjectLabelsOnHeap h specRef markerKey markerVal).1.read specRef =
      h.read specRef) ∧
    ((buildProjectLabelsOnHeap h specRef markerKey markerVal).1.read
        (buildProjectLabelsOnHeap h specRef markerKey markerVal).2 =
      buildCreatedLabels (h.read specRef) markerKey markerVal) ∧
    (∀ k, mapLookup ((buildProjectLabelsOnHeap h specRef markerKey markerVal).1.read
        (buildProjectLabelsOnHeap h specRef markerKey markerVal).2) k =
      if k = markerKey then some markerVal else mapLookup (h.read specRef) k) := by
  have hne : h.maps.length ≠ specRef := by omega
  have halloc1 : h.alloc.1.read specRef = h.read specRef :=
    LabelHeap.read_alloc_old h specRef href
  have hlen1 : h.alloc.1.maps.length = h.maps.length + 1 := by
    unfold LabelHeap.alloc
    simp
  have hfresh : h.alloc.2 = h.maps.length := rfl
  have hframe : (buildProjectLabelsOnHeap h specRef markerKey markerVal).1.read specRef =
      h.read specRef := by
    unfold buildProjectLabelsOnHeap
    dsimp only
    rw [LabelHeap.read_insertAt_ne _ _ _ _ _ (hfresh ▸ hne),
      LabelHeap.read_foldl_insertAt_ne _ _ _ _ (hfresh ▸ hne), halloc1]
  have hcontent : (buildProjectLabelsOnHeap h specRef markerKey markerVal).1.read
      (buildProjectLabelsOnHeap h specRef markerKey markerVal).2 =
      buildCreatedLabels (h.read specRef) markerKey markerVal := by
    unfold buildProjectLabelsOnHeap
    dsimp only
    have hproj : h.alloc.2 < h.alloc.1.maps.length := by omega
    rw [LabelHeap.read_insertAt_self _ _ _ _
        (by rw [LabelHeap.length_foldl_insertAt]; exact hproj),
      LabelHeap.read_foldl_insertAt_self _ _ _ hproj,
      LabelHeap.read_alloc_fresh, halloc1]
    rfl
  refine ⟨hframe, hcontent, fun k => ?_⟩
  rw [hcontent]
  exact mapLookup_buildCreatedLabels _ _ _ _ hnd

theorem C9_witness :
    ((buildProjectLabelsOnHeap ⟨[[("team", "infra"), ("env", "prod")]]⟩ 0
        "managed-by" "gproj").1.read 0 = [("team", "infra"), ("env", "prod")]) ∧
    (mapLookup ((buildProjectLabelsOnHeap ⟨[[("team", "infra"), ("env", "prod")]]⟩ 0
        "managed-by" "gproj").1.read
        (buildProjectLabelsOnHeap ⟨[[("team", "infra"), ("env", "prod")]]⟩ 0
          "managed-by" "gproj").2) "env" = some "prod") ∧
    (mapLookup ((buildProjectLabelsOnHeap ⟨[[("team", "infra"), ("env", "prod")]]⟩ 0
        "managed-by" "gproj").1.read
        (buildProjectLabelsOnHeap ⟨[[("team", "infra"), ("env", "prod")]]⟩ 0
          "managed-by" "gproj").2) "managed-by" = some "gproj") := by
  have h := C9_labels_frame ⟨[[("team", "infra"), ("env", "prod")]]⟩ 0
    "managed-by" "gproj" (by decide) (by decide)
  refine ⟨h.1, ?_, ?_⟩
  · rw [h.2.2 "env"]
    decide
  · rw [h.2.2 "managed-by"]
    decide

/-- C2 as stated is refuted on the sync path: sync performs no local name
validation (the source carries a TODO in its place), so a spec whose name
has fewer than 4 bytes still reaches the remote services.  Here a 2-byte
name produces a project fetch and a normal completion instead of a
validation error. -/
theorem C2_counterexample :
    ({ exSpecConverged with name := "ab" } : ProjectSpec).name.utf8ByteSize < 4 ∧
    (syncRun exWorldBase { exSpecConverged with name := "ab" }).1 = .ok () ∧
    Call.projectsGet ∈ (syncRun exWorldBase { exSpecConverged with name := "ab" }).2 := by
  refine ⟨by decide, ?_, ?_⟩ <;> decide

/-- C2 amended: on the apply path, a spec whose name is shorter than 4 bytes
fails with the validation error before any remote call (the trace is empty);
the sync path performs no such validation. -/
theorem C2_amended (w : World) (spec : ProjectSpec)
    (hcreds : w.credsResult = .ok ())
    (hshort : spec.name.utf8ByteSize < 4) :
    applyRun w spec = (.error (.validation spec.name), []) := by
  unfold applyRun
  rw [hcreds]
  dsimp only
  rw [if_pos hshort]

theorem C2_witness :
    applyRun exWorldBase { exSpecConverged with name := "ab" } =
      (.error (.validation "ab"), []) :=
  C2_amended exWorldBase { exSpecConverged with name := "ab" } rfl (by decide)

/-- C1 as stated is refuted on the apply path: against the very backing state
that sync recognizes as fully converged (its own run issues no mutating
call, i.e. the computed enable-diff is empty), apply still submits a
batch-enable call for the full requested list, because it computes no diff
against the catalog. -/
theorem C1_counterexample :
    ((syncRun exWorldBase exSpecConverged).2.filter Call.isMutating = []) ∧
    Call.batchEnable ["compute.googleapis.com"] ∈ (applyRun exWorldBase exSpecConverged).2 ∧
    (applyRun exWorldBase exSpecConverged).2.filter Call.isMutating ≠ [] := by
  refine ⟨by decide, by decide, by decide⟩

/-- C1 amended: on the sync path the claim holds as stated: when the project
exists, the resolved billing account equals the current link, and every
requested API is already enabled in the catalog, the run succeeds and issues
no mutating call.  On the apply path, under the same converged backing
state, no create and no billing update is issued, but the only mutating call
it can issue is a batch-enable, and it does submit the batch-enable of the
full normalized request list whenever that list is non-empty and within the
batch limit (apply computes no enable-diff). -/
theorem C1_amended_idempotence :
    (∀ (w : World) (spec : ProjectSpec) (p : Project) (b : ProjectBillingInfo)
      (acct : String) (accTr : List Call) (services : List ServiceInfo),
      w.crmInit = .ok () →
      w.getProject = .ok p →
      w.billingInit = .ok () →
      w.getBillingInfo = .ok b →
      resolveBillingAccount w spec.billing "" = (.ok acct, accTr) →
      acct = b.billingAccountName →
      w.apiInit = .ok () →
      w.listServices = .ok services →
      (∀ r ∈ spec.apis,
        (mapLookup (buildApisMap services) (normalizeAPI r)).map (fun e => e.enabled) =
          some true) →
      (syncRun w spec).1 = .ok () ∧
      ∀ c ∈ (syncRun w spec).2, c.isMutating = false) ∧
    (∀ (w : World) (spec : ProjectSpec) (p : Project) (b : ProjectBillingInfo)
      (acct : String) (accTr : List Call),
      w.credsResult = .ok () →
      ¬ spec.name.utf8ByteSize < 4 →
      w.crmInit = .ok () →
      w.apiInit = .ok () →
      w.getProject = .ok p →
      w.billingInit = .ok () →
      w.getBillingInfo = .ok b →
      resolveBillingAccount w spec.billing "enable" = (.ok acct, accTr) →
      acct = b.billingAccountName →
      (∀ c ∈ (applyRun w spec).2, c.isMutating = true → c.isBatchEnable = true) ∧
      (spec.apis ≠ [] → spec.apis.length ≤ 20 →
        Call.batchEnable (applyToEnable spec.apis) ∈ (applyRun w spec).2)) := by
  constructor
  · intro w spec p b acct accTr services hcrm hget hbil hgb hres hacct hapi hsvc hen
    subst hacct
    have hupd := updateBillingStep_same_account w b
    have hcomp := computeToEnableSync_all_enabled spec.apis (buildApisMap services) hen
    have hacc := resolveBillingAccount_calls w spec.billing ""
    rw [hres] at hacc
    constructor
    · simp only [syncRun, syncAfterProject, hcrm, hget, hbil, hgb, hres, hupd, hapi, hsvc,
        hcomp, enableStep_nil]
    · intro c hc
      simp only [syncRun, syncAfterProject, hcrm, hget, hbil, hgb, hres, hupd, hapi, hsvc,
        hcomp, enableStep_nil] at hc
      simp only [List.append_nil, List.mem_append, List.mem_singleton, List.mem_cons,
        List.not_mem_nil, or_false, false_or] at hc
      rcases hc with ((hc | hc) | hc) | hc
      · subst hc; rfl
      · subst hc; rfl
      · rw [hacc c hc]; rfl
      · subst hc; rfl
  · intro w spec p b acct accTr hcreds hname hcrm hapi hget hbil hgb hres hacct
    subst hacct
    have hupd := updateBillingStep_same_account w b
    have hacc := resolveBillingAccount_calls w spec.billing "enable"
    rw [hres] at hacc
    constructor
    · intro c hc hmutc
      simp only [applyRun, applyAfterProject, hcreds, if_neg hname, hcrm, hapi, hget, hbil,
        hgb, hres, hupd] at hc
      simp only [List.append_nil, List.mem_append, List.mem_singleton, List.mem_cons,
        List.not_mem_nil, or_false, false_or] at hc
      have henc := enableStep_calls w (applyToEnable spec.apis)
      rcases hc with ((hc | hc) | hc) | hc
      · subst hc; simp [Call.isMutating] at hmutc
      · subst hc; simp [Call.isMutating] at hmutc
      · rw [hacc c hc] at hmutc; simp [Call.isMutating] at hmutc
      · rcases henc c hc with hc2 | hc2
        · subst hc2; rfl
        · rw [hc2] at hmutc; simp [Call.isMutating] at hmutc
    · intro hne h20
      have hlenmap : (applyToEnable spec.apis).length = spec.apis.length := by
        simp [applyToEnable]
      have h0 : 0 < (applyToEnable spec.apis).length := by
        rw [hlenmap]
        exact List.length_pos.mpr hne
      have hmem := enableStep_batch_mem w (applyToEnable spec.apis) h0 (by omega)
      simp only [applyRun, applyAfterProject, hcreds, if_neg hname, hcrm, hapi, hget, hbil,
        hgb, hres, hupd]
      exact List.mem_append_right _ hmem

theorem C1_witness :
    ((syncRun exWorldBase exSpecConverged).1 = .ok () ∧
      ∀ c ∈ (syncRun exWorldBase exSpecConverged).2, c.isMutating = false) ∧
    (∀ c ∈ (applyRun exWorldBase exSpecConverged).2,
      c.isMutating = true → c.isBatchEnable = true) := by
  constructor
  · exact C1_amended_idempotence.1 exWorldBase exSpecConverged exProject exBillingInfo
      exBillingInfo.billingAccountName []
      [⟨"compute.googleapis.com", "Compute Engine API", "ENABLED", none⟩]
      rfl rfl rfl rfl rfl rfl rfl rfl (by decide)
  · exact (C1_amended_idempotence.2 exWorldBase exSpecConverged exProject exBillingInfo
      exBillingInfo.billingAccountName [] rfl (by decide) rfl rfl rfl rfl rfl rfl rfl).1

/-- C6: on both paths, when the computed enable-list exceeds 20 entries the
run stops with the batch-limit error carrying the list length, and no
batch-enable call appears anywhere in the trace, not even a shortened
one.  (On the apply path the project is taken to exist, so the create-path
bootstrap enablement is not in play; on the sync path the create path
contains no batch-enable at all.) -/
theorem C6_batch_limit :
    (∀ (w : World) (spec : ProjectSpec) (p : Project) (b : ProjectBillingInfo)
      (acct : String) (accTr updTr : List Call) (services : List ServiceInfo)
      (l : List String),
      w.crmInit = .ok () →
      w.getProject = .ok p →
      w.billingInit = .ok () →
      w.getBillingInfo = .ok b →
      resolveBillingAccount w spec.billing "" = (.ok acct, accTr) →
      updateBillingStep w b acct = (.ok (), updTr) →
      w.apiInit = .ok () →
      w.listServices = .ok services →
      computeToEnableSync spec.apis (buildApisMap services) = .ok l →
      l.length > 20 →
      (syncRun w spec).1 = .error (.batchLimit l.length) ∧
      ∀ c ∈ (syncRun w spec).2, c.isBatchEnable = false) ∧
    (∀ (w : World) (spec : ProjectSpec) (p : Project) (b : ProjectBillingInfo)
      (acct : String) (accTr updTr : List Call),
      w.credsResult = .ok () →
      ¬ spec.name.utf8ByteSize < 4 →
      w.crmInit = .ok () →
      w.apiInit = .ok () →
      w.getProject = .ok p →
      w.billingInit = .ok () →
      w.getBillingInfo = .ok b →
      resolveBillingAccount w spec.billing "enable" = (.ok acct, accTr) →
      updateBillingStep w b acct = (.ok (), updTr) →
      (applyToEnable spec.apis).length > 20 →
      (applyRun w spec).1 = .error (.batchLimit (applyToEnable spec.apis).length) ∧
      ∀ c ∈ (applyRun w spec).2, c.isBatchEnable = false) := by
  constructor
  · intro w spec p b acct accTr updTr services l hcrm hget hbil hgb hres hupd hapi hsvc
      hcomp hlen
    have hover := enableStep_over_limit w l hlen
    have hacc := resolveBillingAccount_calls w spec.billing ""
    rw [hres] at hacc
    have hup := updateBillingStep_calls w b acct
    rw [hupd] at hup
    constructor
    · simp only [syncRun, syncAfterProject, hcrm, hget, hbil, hgb, hres, hupd, hapi, hsvc,
        hcomp, hover]
    · intro c hc
      simp only [syncRun, syncAfterProject, hcrm, hget, hbil, hgb, hres, hupd, hapi, hsvc,
        hcomp, hover] at hc
      simp only [List.append_nil, List.mem_append, List.mem_singleton, List.mem_cons,
        List.not_mem_nil, or_false, false_or] at hc
      rcases hc with (((hc | hc) | hc) | hc) | hc
      · subst hc; rfl
      · subst hc; rfl
      · rw [hacc c hc]; rfl
      · rw [hup c hc]; rfl
      · subst hc; rfl
  · intro w spec p b acct accTr updTr hcreds hname hcrm hapi hget hbil hgb hres hupd hlen
    have hover := enableStep_over_limit w (applyToEnable spec.apis) hlen
    have hacc := resolveBillingAccount_calls w spec.billing "enable"
    rw [hres] at hacc
    have hup := updateBillingStep_calls w b acct
    rw [hupd] at hup
    constructor
    · simp only [applyRun, applyAfterProject, hcreds, if_neg hname, hcrm, hapi, hget, hbil,
        hgb, hres, hupd, hover]
    · intro c hc
      simp only [applyRun, applyAfterProject, hcreds, if_neg hname, hcrm, hapi, hget, hbil,
        hgb, hres, hupd, hover] at hc
      simp only [List.append_nil, List.mem_append, List.mem_singleton, List.mem_cons,
        List.not_mem_nil, or_false, false_or] at hc
      rcases hc with ((hc | hc) | hc) | hc
      · subst hc; rfl
      · subst hc; rfl
      · rw [hacc c hc]; rfl
      · rw [hup c hc]; rfl

/-- Twenty-one requested API names, each already fully qualified. -/
def manyNames : List String :=
  (List.range 21).map (fun i => "api" ++ toString i ++ ".example.com")

/-- A catalog listing all twenty-one services as disabled. -/
def manyServices : List ServiceInfo :=
  manyNames.map (fun n =>
    { configName := n, configTitle := n, state := "DISABLED", docSummary := none })

/-- The converged world with the 21-service catalog. -/
def exWorld21 : World := { exWorldBase with listServices := .ok manyServices }

/-- The example spec requesting all twenty-one APIs. -/
def exSpec21 : ProjectSpec := { exSpecConverged with apis := manyNames }

theorem C6_witness :
    ((syncRun exWorld21 exSpec21).1 = .error (.batchLimit 21)) ∧
    ((applyRun exWorld21 exSpec21).1 = .error (.batchLimit 21)) := by
  constructor
  · exact (C6_batch_limit.1 exWorld21 exSpec21 exProject exBillingInfo
      exBillingInfo.billingAccountName [] [] manyServices manyNames
      rfl rfl rfl rfl rfl rfl rfl rfl (by decide) (by decide)).1
  · exact (C6_batch_limit.2 exWorld21 exSpec21 exProject exBillingInfo
      exBillingInfo.billingAccountName [] []
      rfl (by decide) rfl rfl rfl rfl rfl rfl rfl (by decide)).1

end Gproj
